import Mathlib

/-!
Shallow embedding of the `ProjectMatch.TaxonomySelector` selection-state
tracker (source: `src/unnamed/part_000`, lines 13-19, 48-53, 234-316).

The rendering side effects (`renderSelected`, jQuery/Handlebars/Masonry
calls) only read the selection state; they are external collaborators and
are not modelled.  A thrown JavaScript `TypeError` is modelled as
`Except.error ()`; in the modelled code every throwing property access
occurs before the first mutation of the selection state, so an operation
that throws leaves the state unchanged.
-/

namespace TaxonomySelector

/-- Embedding of `self.taxonomies` (source lines 13-17). -/
def taxonomies : List String := ["skills", "learnSkills", "interests"]

/-- A selected item record `{name: itemName}` as pushed at source line 269. -/
structure Item where
  name : String
deriving DecidableEq

/-- One slot of a JavaScript array of item records: `none` models the hole
left at an index by `delete items[itemIndex]` (source line 301); reading
such a slot yields `undefined`. -/
abbrev Slot := Option Item

/-- A section record `{name: parentItemName, items: [...]}` as created at
source lines 260-263. -/
structure Section where
  name : String
  items : List Slot
deriving DecidableEq

/-- The `itemsBySection` object of one taxonomy: a JavaScript object with
string keys in insertion order, modelled as an association list with
unique keys looked up at the first matching binding. -/
abbrev SectionMap := List (String × Section)

/-- One entry of `selectedItemsData`: `{name: taxonomyName, itemsBySection: {...}}`
(source lines 49-52). -/
structure TaxonomyData where
  name : String
  itemsBySection : SectionMap
deriving DecidableEq

/-- The whole `self.selectedItemsData` object (source line 19), keyed by
taxonomy name. -/
abbrev State := List (String × TaxonomyData)

/-- JavaScript property read `obj[key]` on an object modelled as an
association list: the first binding wins, a missing key reads `undefined`
(here `none`). -/
def jsGet {α : Type} : List (String × α) → String → Option α
  | [], _ => none
  | (k, v) :: rest, key => if k = key then some v else jsGet rest key

/-- JavaScript in-place update of the property `key` of an object modelled
as an association list: rewrite the first binding with that key, leave the
object unchanged when the key is absent. -/
def updateFirst {α : Type} : List (String × α) → String → (α → α) → List (String × α)
  | [], _, _ => []
  | (k, v) :: rest, key, f =>
      if k = key then (k, f v) :: rest else (k, v) :: updateFirst rest key f

/-- The startup initialization of `selectedItemsData` (source lines 48-53):
one record with an empty `itemsBySection` per known taxonomy. -/
def initialState : State :=
  taxonomies.map (fun t => (t, { name := t, itemsBySection := [] }))

/-- Strict equality `items[i] === itemName` as evaluated inside
`Array.prototype.indexOf` at source line 267: the array elements are item
records (objects) or holes (read as `undefined`), the search value is a
string, and `===` between an object and a string, or between `undefined`
and a string, is always `false`. -/
def jsStrictEqElemStr (_x : Slot) (_v : String) : Bool := false

/-- Loop of `Array.prototype.indexOf` carrying the current index. -/
def jsIndexOfGo (v : String) : Nat → List Slot → Int
  | _, [] => -1
  | idx, x :: rest =>
      if jsStrictEqElemStr x v then (idx : Int) else jsIndexOfGo v (idx + 1) rest

/-- Embedding of `items.indexOf(itemName)` as called at source line 267: first index whose
element is strictly equal to the searched string, else `-1`. -/
def jsIndexOf (items : List Slot) (v : String) : Int :=
  jsIndexOfGo v 0 items

/-- JavaScript truthiness of a number: every number except `0` (and `NaN`)
is truthy; in particular `-1` is truthy. -/
def jsTruthy (n : Int) : Bool := n != 0

/-- Embedding of `delete items[idx]` (source line 301): for an in-range index this leaves
a hole at that position without changing the array length; for `-1` (or any
out-of-range index) it is a no-op. -/
def jsDelete (items : List Slot) (idx : Int) : List Slot :=
  match idx with
  | Int.ofNat n => items.set n none
  | Int.negSucc _ => items

/-- Embedding of `self.selectItem(taxonomyName, parentItemName, itemName)` (source lines
234-281).  Reading `data['itemsBySection']` of an unknown taxonomy throws a
`TypeError` (`Except.error ()`), before any mutation.  Otherwise a missing
section record is created with an empty `items` array (lines 258-264), and
the item is pushed when `items.indexOf(itemName)` is truthy (lines 267-274).
The trailing `self.renderSelected()` call only reads state and is not
modelled. -/
def selectItem (st : State) (taxonomyName parentItemName itemName : String) :
    Except Unit State :=
  match jsGet st taxonomyName with
  | none => Except.error ()
  | some data =>
    let created : SectionMap :=
      match jsGet data.itemsBySection parentItemName with
      | none => data.itemsBySection ++
          [(parentItemName, { name := parentItemName, items := [] })]
      | some _ => data.itemsBySection
    match jsGet created parentItemName with
    | none => Except.error ()
    | some sec =>
      let withItem : SectionMap :=
        if jsTruthy (jsIndexOf sec.items itemName) then
          updateFirst created parentItemName
            (fun s => { s with items := s.items ++ [some { name := itemName }] })
        else created
      Except.ok (updateFirst st taxonomyName
        (fun d => { d with itemsBySection := withItem }))

/-- Loop of `self.indexOfNamedItems` (source lines 310-314) carrying the
loop counter `i`: reading `items[i].name` of a hole (where `items[i]` is
`undefined`) throws a `TypeError`. -/
def indexOfNamedItemsGo (name : String) : Nat → List Slot → Except Unit Int
  | _, [] => Except.ok (-1)
  | _, none :: _ => Except.error ()
  | idx, some it :: rest =>
      if it.name = name then Except.ok (idx : Int)
      else indexOfNamedItemsGo name (idx + 1) rest

/-- Embedding of `self.indexOfNamedItems(items, name)` (source lines 309-316): linear
search for the first element whose `name` field equals `name`, returning its
index, or `-1` when the loop completes without a match. -/
def indexOfNamedItems (items : List Slot) (name : String) : Except Unit Int :=
  indexOfNamedItemsGo name 0 items

/-- Embedding of `self.unselectItem(taxonomyName, parentItemName, itemName)` (source
lines 290-307).  An unknown taxonomy throws when reading
`data['itemsBySection']`; a missing section record skips the body; otherwise
`indexOfNamedItems` locates the item (possibly throwing on a hole) and
`delete items[itemIndex]` removes it sparsely.  All throwing accesses occur
before the `delete`, so a throw leaves the state unchanged.  The trailing
`self.renderSelected()` call is not modelled. -/
def unselectItem (st : State) (taxonomyName parentItemName itemName : String) :
    Except Unit State :=
  match jsGet st taxonomyName with
  | none => Except.error ()
  | some data =>
    match jsGet data.itemsBySection parentItemName with
    | none => Except.ok st
    | some sec =>
      match indexOfNamedItems sec.items itemName with
      | Except.error _ => Except.error ()
      | Except.ok idx =>
        let removeAt : SectionMap → SectionMap := fun m =>
          updateFirst m parentItemName
            (fun s => { s with items := jsDelete s.items idx })
        Except.ok (updateFirst st taxonomyName
          (fun d => { d with itemsBySection := removeAt d.itemsBySection }))

/-- One user interaction with the tracker. -/
inductive Op where
  | sel (taxonomyName sectionName itemName : String)
  | unsel (taxonomyName sectionName itemName : String)
deriving DecidableEq

/-- Running one operation on the state.  In the source every throwing
property access happens before the first mutation, so an operation that
throws leaves the selection state as it was. -/
def applyOp (st : State) : Op → State
  | Op.sel t s i => ((selectItem st t s i).toOption).getD st
  | Op.unsel t s i => ((unselectItem st t s i).toOption).getD st

/-- Running a sequence of operations left to right. -/
def runOps (st : State) (ops : List Op) : State :=
  ops.foldl applyOp st

/-- The section record stored for section `s` of taxonomy `t`, i.e.
`selectedItemsData[t]['itemsBySection'][s]`. -/
def getSection (st : State) (t s : String) : Option Section :=
  (jsGet st t).bind (fun d => jsGet d.itemsBySection s)

/-- The item array of section `s` of taxonomy `t`, read as `[]` when the
taxonomy or the section is absent. -/
def getItems (st : State) (t s : String) : List Slot :=
  ((getSection st t s).map Section.items).getD []

/-- How many slots of section `s` of taxonomy `t` hold the item record
`{name: i}`. -/
def countSel (st : State) (t s i : String) : Nat :=
  (getItems st t s).count (some { name := i })

/-- Structural well-formedness guaranteed by the startup initialization:
the top-level keys of `selectedItemsData` are exactly the known taxonomies,
in order. -/
def wfKeys (st : State) : Prop :=
  st.map Prod.fst = taxonomies

/-! ### Helper lemmas about the association-list primitives -/

theorem jsGet_updateFirst_self {α : Type} (m : List (String × α)) (k : String) (f : α → α) :
    jsGet (updateFirst m k f) k = (jsGet m k).map f := by
  induction m with
  | nil => rfl
  | cons p rest ih =>
    obtain ⟨k₀, v⟩ := p
    by_cases h0 : k₀ = k
    · simp [updateFirst, jsGet, h0]
    · simp [updateFirst, jsGet, h0, ih]

theorem jsGet_updateFirst_ne {α : Type} (m : List (String × α)) (k k' : String) (f : α → α)
    (h : k' ≠ k) : jsGet (updateFirst m k f) k' = jsGet m k' := by
  induction m with
  | nil => rfl
  | cons p rest ih =>
    obtain ⟨k₀, v⟩ := p
    by_cases h0 : k₀ = k
    · subst h0
      have hk' : ¬(k₀ = k') := fun e => h e.symm
      simp [updateFirst, jsGet, hk']
    · simp [updateFirst, jsGet, h0, ih]

theorem map_fst_updateFirst {α : Type} (m : List (String × α)) (k : String) (f : α → α) :
    (updateFirst m k f).map Prod.fst = m.map Prod.fst := by
  induction m with
  | nil => rfl
  | cons p rest ih =>
    obtain ⟨k₀, v⟩ := p
    by_cases h0 : k₀ = k <;> simp [updateFirst, h0, ih]

theorem jsGet_append_of_none {α : Type} {m : List (String × α)} {k : String}
    (h : jsGet m k = none) (l : List (String × α)) : jsGet (m ++ l) k = jsGet l k := by
  induction m with
  | nil => rfl
  | cons p rest ih =>
    obtain ⟨k₀, v⟩ := p
    by_cases h0 : k₀ = k
    · simp [jsGet, h0] at h
    · simp only [jsGet, h0] at h
      simp [jsGet, h0, ih h]

theorem jsGet_append_of_some {α : Type} {m : List (String × α)} {k : String} {v : α}
    (h : jsGet m k = some v) (l : List (String × α)) : jsGet (m ++ l) k = some v := by
  induction m with
  | nil => simp [jsGet] at h
  | cons p rest ih =>
    obtain ⟨k₀, w⟩ := p
    by_cases h0 : k₀ = k
    · simp only [jsGet, h0, if_pos rfl] at h ⊢
      simpa using h
    · simp only [jsGet, h0, if_neg h0] at h ⊢
      exact ih h

theorem jsGet_append_singleton_ne {α : Type} (m : List (String × α)) {k k' : String}
    (v : α) (h : k' ≠ k) : jsGet (m ++ [(k, v)]) k' = jsGet m k' := by
  cases hm : jsGet m k' with
  | none =>
    rw [jsGet_append_of_none hm]
    have hk : ¬(k = k') := fun e => h e.symm
    simp [jsGet, hk, hm]
  | some w => rw [jsGet_append_of_some hm]

theorem jsGet_isSome_iff {α : Type} (m : List (String × α)) (k : String) :
    (jsGet m k).isSome ↔ k ∈ m.map Prod.fst := by
  induction m with
  | nil => simp [jsGet]
  | cons p rest ih =>
    obtain ⟨k₀, v⟩ := p
    by_cases h0 : k₀ = k
    · simp [jsGet, h0]
    · simp [jsGet, h0, ih, Ne.symm h0]

/-! ### The broken duplicate check always pushes -/

theorem jsIndexOfGo_eq_neg_one (v : String) (items : List Slot) :
    ∀ idx, jsIndexOfGo v idx items = -1 := by
  induction items with
  | nil => intro idx; rfl
  | cons x rest ih => intro idx; simp [jsIndexOfGo, jsStrictEqElemStr, ih]

/-- The call `items.indexOf(itemName)` at source line 267 compares item records
(objects) against a string with `===`, so it never finds a match: the
result is `-1` for every array and every name. -/
theorem jsIndexOf_eq_neg_one (items : List Slot) (v : String) :
    jsIndexOf items v = -1 :=
  jsIndexOfGo_eq_neg_one v items 0

theorem jsTruthy_neg_one : jsTruthy (-1) = true := rfl

/-! ### Characterization of `selectItem` -/

theorem selectItem_err {st : State} {t : String} (s i : String)
    (h : jsGet st t = none) : selectItem st t s i = Except.error () := by
  simp [selectItem, h]

theorem selectItem_eq_new {st : State} {t : String} {d : TaxonomyData} {s : String} (i : String)
    (hd : jsGet st t = some d) (hs : jsGet d.itemsBySection s = none) :
    selectItem st t s i = Except.ok (updateFirst st t (fun d' => TaxonomyData.mk d'.name
      (updateFirst (d.itemsBySection ++ [(s, Section.mk s [])]) s
        (fun sc => Section.mk sc.name (sc.items ++ [some (Item.mk i)]))))) := by
  have hget : jsGet (d.itemsBySection ++ [(s, Section.mk s [])]) s = some (Section.mk s []) := by
    rw [jsGet_append_of_none hs]; simp [jsGet]
  simp [selectItem, hd, hs, hget, jsIndexOf_eq_neg_one, jsTruthy]

theorem selectItem_eq_old {st : State} {t : String} {d : TaxonomyData} {s : String}
    {sec : Section} (i : String)
    (hd : jsGet st t = some d) (hs : jsGet d.itemsBySection s = some sec) :
    selectItem st t s i = Except.ok (updateFirst st t (fun d' => TaxonomyData.mk d'.name
      (updateFirst d.itemsBySection s
        (fun sc => Section.mk sc.name (sc.items ++ [some (Item.mk i)]))))) := by
  simp [selectItem, hd, hs, jsIndexOf_eq_neg_one, jsTruthy]

theorem selectItem_isOk {st : State} {t : String} {d : TaxonomyData} (s i : String)
    (hd : jsGet st t = some d) : ∃ st', selectItem st t s i = Except.ok st' := by
  cases hs : jsGet d.itemsBySection s with
  | none => exact ⟨_, selectItem_eq_new i hd hs⟩
  | some sec => exact ⟨_, selectItem_eq_old i hd hs⟩

theorem selectItem_ok_dest {st st' : State} {t s i : String}
    (h : selectItem st t s i = Except.ok st') :
    ∃ d, jsGet st t = some d := by
  cases hd : jsGet st t with
  | none => rw [selectItem_err s i hd] at h; exact absurd h (by simp)
  | some d => exact ⟨d, rfl⟩

theorem selectItem_jsGet_ne {st st' : State} {t s i : String}
    (h : selectItem st t s i = Except.ok st') {t' : String} (hne : t' ≠ t) :
    jsGet st' t' = jsGet st t' := by
  obtain ⟨d, hd⟩ := selectItem_ok_dest h
  cases hs : jsGet d.itemsBySection s with
  | none =>
    rw [selectItem_eq_new i hd hs] at h
    cases h
    exact jsGet_updateFirst_ne st t t' _ hne
  | some sec =>
    rw [selectItem_eq_old i hd hs] at h
    cases h
    exact jsGet_updateFirst_ne st t t' _ hne

theorem selectItem_map_fst {st st' : State} {t s i : String}
    (h : selectItem st t s i = Except.ok st') :
    st'.map Prod.fst = st.map Prod.fst := by
  obtain ⟨d, hd⟩ := selectItem_ok_dest h
  cases hs : jsGet d.itemsBySection s with
  | none =>
    rw [selectItem_eq_new i hd hs] at h
    cases h
    exact map_fst_updateFirst st t _
  | some sec =>
    rw [selectItem_eq_old i hd hs] at h
    cases h
    exact map_fst_updateFirst st t _

theorem selectItem_getSection_new {st st' : State} {t s : String} (i : String)
    (h : selectItem st t s i = Except.ok st') (hn : getSection st t s = none) :
    getSection st' t s = some (Section.mk s [some (Item.mk i)]) := by
  obtain ⟨d, hd⟩ := selectItem_ok_dest h
  have hs : jsGet d.itemsBySection s = none := by
    simpa [getSection, hd] using hn
  rw [selectItem_eq_new i hd hs] at h
  cases h
  have hget : jsGet (d.itemsBySection ++ [(s, Section.mk s [])]) s
      = some (Section.mk s []) := by
    rw [jsGet_append_of_none hs]; simp [jsGet]
  simp [getSection, jsGet_updateFirst_self, hd, hget]

theorem selectItem_getSection_old {st st' : State} {t s : String} (i : String)
    {sec : Section} (h : selectItem st t s i = Except.ok st')
    (hsec : getSection st t s = some sec) :
    getSection st' t s = some (Section.mk sec.name (sec.items ++ [some (Item.mk i)])) := by
  obtain ⟨d, hd⟩ := selectItem_ok_dest h
  have hs : jsGet d.itemsBySection s = some sec := by
    simpa [getSection, hd] using hsec
  rw [selectItem_eq_old i hd hs] at h
  cases h
  simp [getSection, jsGet_updateFirst_self, hd, hs]

theorem selectItem_getSection_ne {st st' : State} {t s i : String}
    (h : selectItem st t s i = Except.ok st') (t₀ : String) {s' : String} (hs' : s' ≠ s) :
    getSection st' t₀ s' = getSection st t₀ s' := by
  by_cases ht : t₀ = t
  · subst ht
    obtain ⟨d, hd⟩ := selectItem_ok_dest h
    cases hs : jsGet d.itemsBySection s with
    | none =>
      rw [selectItem_eq_new i hd hs] at h
      cases h
      simp only [getSection, jsGet_updateFirst_self, hd, Option.map_some', Option.some_bind]
      rw [jsGet_updateFirst_ne _ _ _ _ hs', jsGet_append_singleton_ne _ _ hs']
    | some sec =>
      rw [selectItem_eq_old i hd hs] at h
      cases h
      simp only [getSection, jsGet_updateFirst_self, hd, Option.map_some', Option.some_bind]
      rw [jsGet_updateFirst_ne _ _ _ _ hs']
  · have hj := selectItem_jsGet_ne h ht
    simp [getSection, hj]

theorem selectItem_getItems {st st' : State} {t s i : String}
    (h : selectItem st t s i = Except.ok st') :
    getItems st' t s = getItems st t s ++ [some (Item.mk i)] := by
  cases hsec : getSection st t s with
  | none => simp [getItems, hsec, selectItem_getSection_new i h hsec]
  | some sec => simp [getItems, hsec, selectItem_getSection_old i h hsec]

/-! ### Characterization of `unselectItem` -/

theorem unselectItem_err {st : State} {t : String} (s i : String)
    (h : jsGet st t = none) : unselectItem st t s i = Except.error () := by
  simp [unselectItem, h]

theorem unselectItem_ok_dest {st st' : State} {t s i : String}
    (h : unselectItem st t s i = Except.ok st') :
    ∃ d, jsGet st t = some d := by
  cases hd : jsGet st t with
  | none => rw [unselectItem_err s i hd] at h; exact absurd h (by simp)
  | some d => exact ⟨d, rfl⟩

theorem unselectItem_noSection {st : State} {t s : String} (i : String) {d : TaxonomyData}
    (hd : jsGet st t = some d) (hs : jsGet d.itemsBySection s = none) :
    unselectItem st t s i = Except.ok st := by
  simp [unselectItem, hd, hs]

theorem unselectItem_eq_found {st : State} {t s i : String} {d : TaxonomyData}
    {sec : Section} {idx : Int}
    (hd : jsGet st t = some d) (hs : jsGet d.itemsBySection s = some sec)
    (hidx : indexOfNamedItems sec.items i = Except.ok idx) :
    unselectItem st t s i = Except.ok (updateFirst st t (fun d' => TaxonomyData.mk d'.name
      (updateFirst d'.itemsBySection s
        (fun sc => Section.mk sc.name (jsDelete sc.items idx))))) := by
  simp [unselectItem, hd, hs, hidx]

theorem unselectItem_eq_throw {st : State} {t s i : String} {d : TaxonomyData}
    {sec : Section}
    (hd : jsGet st t = some d) (hs : jsGet d.itemsBySection s = some sec)
    (hidx : indexOfNamedItems sec.items i = Except.error ()) :
    unselectItem st t s i = Except.error () := by
  simp [unselectItem, hd, hs, hidx]

theorem unselectItem_jsGet_ne {st st' : State} {t s i : String}
    (h : unselectItem st t s i = Except.ok st') {t' : String} (hne : t' ≠ t) :
    jsGet st' t' = jsGet st t' := by
  obtain ⟨d, hd⟩ := unselectItem_ok_dest h
  cases hs : jsGet d.itemsBySection s with
  | none =>
    rw [unselectItem_noSection i hd hs] at h
    cases h
    rfl
  | some sec =>
    cases hidx : indexOfNamedItems sec.items i with
    | error u =>
      cases u
      rw [unselectItem_eq_throw hd hs hidx] at h
      exact absurd h (by simp)
    | ok idx =>
      rw [unselectItem_eq_found hd hs hidx] at h
      cases h
      exact jsGet_updateFirst_ne st t t' _ hne

theorem unselectItem_map_fst {st st' : State} {t s i : String}
    (h : unselectItem st t s i = Except.ok st') :
    st'.map Prod.fst = st.map Prod.fst := by
  obtain ⟨d, hd⟩ := unselectItem_ok_dest h
  cases hs : jsGet d.itemsBySection s with
  | none =>
    rw [unselectItem_noSection i hd hs] at h
    cases h
    rfl
  | some sec =>
    cases hidx : indexOfNamedItems sec.items i with
    | error u =>
      cases u
      rw [unselectItem_eq_throw hd hs hidx] at h
      exact absurd h (by simp)
    | ok idx =>
      rw [unselectItem_eq_found hd hs hidx] at h
      cases h
      exact map_fst_updateFirst st t _

theorem unselectItem_getSection_ne {st st' : State} {t s i : String}
    (h : unselectItem st t s i = Except.ok st') (t₀ : String) {s' : String} (hs' : s' ≠ s) :
    getSection st' t₀ s' = getSection st t₀ s' := by
  by_cases ht : t₀ = t
  · subst ht
    obtain ⟨d, hd⟩ := unselectItem_ok_dest h
    cases hs : jsGet d.itemsBySection s with
    | none =>
      rw [unselectItem_noSection i hd hs] at h
      cases h
      rfl
    | some sec =>
      cases hidx : indexOfNamedItems sec.items i with
      | error u =>
        cases u
        rw [unselectItem_eq_throw hd hs hidx] at h
        exact absurd h (by simp)
      | ok idx =>
        rw [unselectItem_eq_found hd hs hidx] at h
        cases h
        simp only [getSection, jsGet_updateFirst_self, hd, Option.map_some', Option.some_bind]
        rw [jsGet_updateFirst_ne _ _ _ _ hs']
  · have hj := unselectItem_jsGet_ne h ht
    simp [getSection, hj]

theorem unselectItem_getSection_self {st st' : State} {t s i : String} {sec : Section}
    (h : unselectItem st t s i = Except.ok st')
    (hsec : getSection st t s = some sec) :
    ∃ sec', getSection st' t s = some sec' := by
  obtain ⟨d, hd⟩ := unselectItem_ok_dest h
  have hs : jsGet d.itemsBySection s = some sec := by
    simpa [getSection, hd] using hsec
  cases hidx : indexOfNamedItems sec.items i with
  | error u =>
    cases u
    rw [unselectItem_eq_throw hd hs hidx] at h
    exact absurd h (by simp)
  | ok idx =>
    rw [unselectItem_eq_found hd hs hidx] at h
    cases h
    exact ⟨Section.mk sec.name (jsDelete sec.items idx),
      by simp [getSection, jsGet_updateFirst_self, hd, hs]⟩

/-! ### Operation sequences -/

theorem runOps_cons (st : State) (op : Op) (ops : List Op) :
    runOps st (op :: ops) = runOps (applyOp st op) ops := rfl

theorem applyOp_sel_of_ok {st st' : State} {t s i : String}
    (h : selectItem st t s i = Except.ok st') : applyOp st (Op.sel t s i) = st' := by
  simp [applyOp, h, Except.toOption]

theorem applyOp_sel_of_err {st : State} {t s i : String}
    (h : selectItem st t s i = Except.error ()) : applyOp st (Op.sel t s i) = st := by
  simp [applyOp, h, Except.toOption]

theorem applyOp_unsel_of_ok {st st' : State} {t s i : String}
    (h : unselectItem st t s i = Except.ok st') : applyOp st (Op.unsel t s i) = st' := by
  simp [applyOp, h, Except.toOption]

theorem applyOp_unsel_of_err {st : State} {t s i : String}
    (h : unselectItem st t s i = Except.error ()) : applyOp st (Op.unsel t s i) = st := by
  simp [applyOp, h, Except.toOption]

theorem getSection_congr {st st' : State} {t : String}
    (h : jsGet st' t = jsGet st t) (s : String) :
    getSection st' t s = getSection st t s := by
  simp [getSection, h]

theorem applyOp_getSection_isSome {st : State} {t s : String}
    (h : (getSection st t s).isSome) (op : Op) :
    (getSection (applyOp st op) t s).isSome := by
  obtain ⟨sec, hsec⟩ := Option.isSome_iff_exists.mp h
  cases op with
  | sel t₀ s₀ i₀ =>
    cases hres : selectItem st t₀ s₀ i₀ with
    | error u => cases u; rw [applyOp_sel_of_err hres]; exact h
    | ok st' =>
      rw [applyOp_sel_of_ok hres]
      by_cases hss : s = s₀
      · subst hss
        by_cases htt : t = t₀
        · subst htt
          rw [selectItem_getSection_old i₀ hres hsec]
          rfl
        · rw [getSection_congr (selectItem_jsGet_ne hres htt) s]
          exact h
      · rw [selectItem_getSection_ne hres t hss]
        exact h
  | unsel t₀ s₀ i₀ =>
    cases hres : unselectItem st t₀ s₀ i₀ with
    | error u => cases u; rw [applyOp_unsel_of_err hres]; exact h
    | ok st' =>
      rw [applyOp_unsel_of_ok hres]
      by_cases hss : s = s₀
      · subst hss
        by_cases htt : t = t₀
        · subst htt
          obtain ⟨sec', hsec'⟩ := unselectItem_getSection_self hres hsec
          rw [hsec']
          rfl
        · rw [getSection_congr (unselectItem_jsGet_ne hres htt) s]
          exact h
      · rw [unselectItem_getSection_ne hres t hss]
        exact h

theorem runOps_getSection_isSome {st : State} {t s : String}
    (h : (getSection st t s).isSome) (ops : List Op) :
    (getSection (runOps st ops) t s).isSome := by
  induction ops generalizing st with
  | nil => exact h
  | cons op ops ih =>
    rw [runOps_cons]
    exact ih (applyOp_getSection_isSome h op)

/-! ### The initial state -/

theorem map_fst_initialState : initialState.map Prod.fst = taxonomies := rfl

theorem wfKeys_initialState : wfKeys initialState := rfl

theorem jsGet_initialState_of_mem {t : String} (ht : t ∈ taxonomies) :
    jsGet initialState t = some (TaxonomyData.mk t []) := by
  simp only [taxonomies, List.mem_cons, List.not_mem_nil, or_false] at ht
  rcases ht with h | h | h <;> subst h <;> rfl

theorem getSection_initialState (t s : String) : getSection initialState t s = none := by
  cases hg : jsGet initialState t with
  | none => simp [getSection, hg]
  | some d =>
    have hibs : d.itemsBySection = [] := by
      simp only [initialState, taxonomies, List.map, jsGet] at hg
      split_ifs at hg <;> cases hg <;> rfl
    unfold getSection
    rw [hg]
    simp [hibs, jsGet]

theorem countSel_initialState (t s i : String) : countSel initialState t s i = 0 := by
  simp [countSel, getItems, getSection_initialState]

/-! ### Counting selected items -/

theorem countSel_selectItem {st st' : State} {t s i : String}
    (h : selectItem st t s i = Except.ok st') (s₀ i₀ : String) :
    countSel st' t s₀ i₀ =
      countSel st t s₀ i₀ + (if s₀ = s ∧ i₀ = i then 1 else 0) := by
  by_cases hss : s₀ = s
  · subst hss
    have hitems := selectItem_getItems h
    simp only [countSel, hitems, List.count_append]
    by_cases hii : i₀ = i
    · subst hii; simp
    · have : ¬(some (Item.mk i₀) = some (Item.mk i)) := by
        simp [Item.mk.injEq, hii]
      simp [List.count_cons, this, hii]
  · have hfr := selectItem_getSection_ne h t hss
    simp [countSel, getItems, hfr, hss]

theorem runOps_sel_count (t : String) (ps : List (String × String)) :
    ∀ st, (jsGet st t).isSome → ∀ s i,
      countSel (runOps st (ps.map fun p => Op.sel t p.1 p.2)) t s i
        = countSel st t s i + ps.count (s, i) := by
  induction ps with
  | nil =>
    intro st _ s i
    simp [runOps]
  | cons p ps ih =>
    obtain ⟨a, b⟩ := p
    intro st hst s i
    obtain ⟨d, hd⟩ := Option.isSome_iff_exists.mp hst
    obtain ⟨st', hok⟩ := selectItem_isOk a b hd
    have hst' : (jsGet st' t).isSome := by
      rw [jsGet_isSome_iff, selectItem_map_fst hok, ← jsGet_isSome_iff]
      exact hst
    rw [List.map_cons, runOps_cons, applyOp_sel_of_ok hok]
    rw [ih st' hst' s i, countSel_selectItem hok s i, List.count_cons]
    simp only [beq_iff_eq, Prod.mk.injEq]
    by_cases hc : s = a ∧ i = b
    · rw [if_pos hc, if_pos (show a = s ∧ b = i from ⟨hc.1.symm, hc.2.symm⟩)]
      omega
    · rw [if_neg hc, if_neg (show ¬(a = s ∧ b = i) from
        fun h => hc ⟨h.1.symm, h.2.symm⟩)]
      omega

theorem runOps_sel_jsGet_ne (t t' : String) (h : t' ≠ t) (ps : List (String × String)) :
    ∀ st, jsGet (runOps st (ps.map fun p => Op.sel t p.1 p.2)) t' = jsGet st t' := by
  induction ps with
  | nil => intro st; rfl
  | cons p ps ih =>
    intro st
    rw [List.map_cons, runOps_cons, ih]
    cases hres : selectItem st t p.1 p.2 with
    | error u => cases u; rw [applyOp_sel_of_err hres]
    | ok st' =>
      rw [applyOp_sel_of_ok hres]
      exact selectItem_jsGet_ne hres h

theorem count_eq_one_of_nodup_of_mem {α : Type} [BEq α] [LawfulBEq α] {a : α}
    {l : List α} (hnd : l.Nodup) (hm : a ∈ l) : l.count a = 1 := by
  induction l with
  | nil => cases hm
  | cons b bs ih =>
    rcases List.nodup_cons.mp hnd with ⟨hb, hbs⟩
    rw [List.count_cons]
    rcases List.mem_cons.mp hm with h | h
    · subst h
      rw [List.count_eq_zero_of_not_mem hb]
      simp
    · have hne : b ≠ a := fun e => hb (e ▸ h)
      have hbeq : (b == a) = false := by simp [hne]
      rw [ih hbs h, hbeq]
      simp

/-! ### `indexOfNamedItems` on hole-free arrays -/

theorem indexOfNamedItemsGo_dense (n : String) (items : List Item) :
    ∀ k, indexOfNamedItemsGo n k (items.map some)
      = Except.ok (if items.any (fun it => it.name == n)
          then ((k + items.findIdx (fun it => it.name == n) : Nat) : Int)
          else -1) := by
  induction items with
  | nil => intro k; rfl
  | cons it rest ih =>
    intro k
    by_cases h : it.name = n
    · simp [indexOfNamedItemsGo, h, List.findIdx_cons]
    · have hb : (it.name == n) = false := by simp [h]
      simp only [List.map_cons, indexOfNamedItemsGo, h, if_false, List.any_cons, hb,
        Bool.false_or, List.findIdx_cons, cond_false, ih (k + 1)]
      by_cases hany : rest.any (fun it => it.name == n)
      · simp only [hany, if_true]
        congr 1
        omega
      · simp [hany]

theorem indexOfNamedItems_dense (items : List Item) (n : String) :
    indexOfNamedItems (items.map some) n
      = Except.ok (if items.any (fun it => it.name == n)
          then (items.findIdx (fun it => it.name == n) : Int)
          else -1) := by
  have h := indexOfNamedItemsGo_dense n items 0
  simpa [indexOfNamedItems] using h

/-! ### Claim theorems -/

/-- C1: the claim asserts that `selectItem` is idempotent per item.  The code
violates this: the duplicate check `items.indexOf(itemName)` (source line
267) compares item records against a string, always yields `-1` (truthy),
and so the item is appended again.  Evaluating the code at the failing
input: selecting `("skills","Languages","Go")` twice from the initial state
stores two copies of `{name:"Go"}`, while selecting it once stores one. -/
theorem C1_double_select_appends_twice :
    getItems (runOps initialState
      [Op.sel "skills" "Languages" "Go", Op.sel "skills" "Languages" "Go"])
      "skills" "Languages" = [some (Item.mk "Go"), some (Item.mk "Go")] ∧
    getItems (runOps initialState [Op.sel "skills" "Languages" "Go"])
      "skills" "Languages" = [some (Item.mk "Go")] :=
  ⟨by decide, by decide⟩

/-- C2: the claim asserts that `selectItem` then `unselectItem` on the same
triple returns the section's item sequence to its pre-selection contents.
The code violates this: `delete items[itemIndex]` (source line 301) leaves a
hole, so from the initial state (pre-selection items sequence `[]`) the
round trip leaves a length-1 sequence holding one hole, not `[]`. -/
theorem C2_roundtrip_leaves_hole :
    getItems initialState "skills" "Languages" = [] ∧
    getItems (runOps initialState
      [Op.sel "skills" "Languages" "Go", Op.unsel "skills" "Languages" "Go"])
      "skills" "Languages" = [none] :=
  ⟨by decide, by decide⟩

/-- C3: the claim asserts that the scenario select Go, select Rust,
unselect Go leaves `skills.itemsBySection.Languages.items` containing only
`{name:"Rust"}`.  The code instead leaves a length-2 sparse sequence: a
hole at position 0 (from `delete items[0]`) followed by `{name:"Rust"}`. -/
theorem C3_end_to_end_leaves_hole :
    getItems (runOps initialState
      [Op.sel "skills" "Languages" "Go", Op.sel "skills" "Languages" "Rust",
       Op.unsel "skills" "Languages" "Go"]) "skills" "Languages"
      = [none, some (Item.mk "Rust")] := by
  decide

/-- C4: the claim asserts that `unselectItem` on a missing target never
throws.  The code violates this on reachable states: after select a,
select b, unselect a the section `Languages` exists with items
`[hole, {name:"b"}]` and contains no item named `"c"`, yet
`unselectItem("skills","Languages","c")` throws a `TypeError` when
`indexOfNamedItems` reads `items[0].name` of the hole (source line 313). -/
theorem C4_unselect_missing_throws_on_hole :
    getSection (runOps initialState
      [Op.sel "skills" "Languages" "a", Op.sel "skills" "Languages" "b",
       Op.unsel "skills" "Languages" "a"]) "skills" "Languages"
      = some (Section.mk "Languages" [none, some (Item.mk "b")]) ∧
    unselectItem (runOps initialState
      [Op.sel "skills" "Languages" "a", Op.sel "skills" "Languages" "b",
       Op.unsel "skills" "Languages" "a"]) "skills" "Languages" "c"
      = Except.error () :=
  ⟨by decide, rfl⟩

/-- C5: `indexOfNamedItems(items, name)` returns the zero-based position of
the first element of `items` whose `name` field equals `name`, and `-1`
when no element matches; in particular
`indexOfNamedItems([{name:"a"},{name:"b"}], "b") = 1` and
`indexOfNamedItems([], "x") = -1`. -/
theorem C5_indexOfNamedItems_first_position :
    (∀ (items : List Item) (n : String),
      indexOfNamedItems (items.map some) n
        = Except.ok (if items.any (fun it => it.name == n)
            then (items.findIdx (fun it => it.name == n) : Int)
            else -1)) ∧
    indexOfNamedItems [some (Item.mk "a"), some (Item.mk "b")] "b" = Except.ok 1 ∧
    indexOfNamedItems ([] : List Slot) "x" = Except.ok (-1) :=
  ⟨indexOfNamedItems_dense, rfl, rfl⟩

/-- C6 counterexample: the claim asserts that `selectItem` does not throw
for every input triple, including a `taxonomyName` outside the known
taxonomy set.  False: for the unknown taxonomy `"colors"`,
`selectedItemsData["colors"]` is `undefined` and reading its
`itemsBySection` property throws a `TypeError` (source line 258), modelled
as `Except.error ()`. -/
theorem C6_counterexample_unknown_taxonomy_throws :
    selectItem initialState "colors" "Languages" "Go" = Except.error () := rfl

/-- C6 amended: on any state whose top-level keys are the known taxonomies
(as the startup initialization guarantees), `selectItem` completes without
signalling an error whenever `taxonomyName` is a known taxonomy, and throws
a `TypeError` whenever it is not. -/
theorem C6_amended_select_throws_iff_unknown (st : State) (t s i : String)
    (hwf : wfKeys st) :
    (t ∈ taxonomies → ∃ st', selectItem st t s i = Except.ok st') ∧
    (t ∉ taxonomies → selectItem st t s i = Except.error ()) := by
  constructor
  · intro ht
    have hmem : t ∈ st.map Prod.fst := by rw [hwf]; exact ht
    obtain ⟨d, hd⟩ := Option.isSome_iff_exists.mp ((jsGet_isSome_iff st t).2 hmem)
    exact selectItem_isOk s i hd
  · intro ht
    cases hd : jsGet st t with
    | none => exact selectItem_err s i hd
    | some d =>
      have hmem : t ∈ st.map Prod.fst := (jsGet_isSome_iff st t).1 (by simp [hd])
      rw [hwf] at hmem
      exact absurd hmem ht

/-- C6 witness: the amended claim applied at the initial state, once with
the known taxonomy `"skills"` and once with the unknown `"colors"`. -/
theorem C6_amended_select_throws_iff_unknown_witness :
    (∃ st', selectItem initialState "skills" "A" "x" = Except.ok st') ∧
    selectItem initialState "colors" "A" "x" = Except.error () :=
  ⟨(C6_amended_select_throws_iff_unknown initialState "skills" "A" "x" rfl).1
      (by decide),
   (C6_amended_select_throws_iff_unknown initialState "colors" "A" "x" rfl).2
      (by decide)⟩

/-- C7 counterexample: the claim asserts that an item already present at a
position other than 0 IS recognized as a duplicate and not appended.
False: with `{name:"b"}` at position 1 of section `S`, selecting `"b"`
again appends a third record, because `items.indexOf("b")` compares item
records against a string and returns `-1` (truthy) regardless of the
position of the identically-named item. -/
theorem C7_counterexample_position_one_still_appended :
    getItems (runOps initialState
      [Op.sel "skills" "S" "a", Op.sel "skills" "S" "b"]) "skills" "S"
      = [some (Item.mk "a"), some (Item.mk "b")] ∧
    getItems (runOps initialState
      [Op.sel "skills" "S" "a", Op.sel "skills" "S" "b", Op.sel "skills" "S" "b"])
      "skills" "S"
      = [some (Item.mk "a"), some (Item.mk "b"), some (Item.mk "b")] :=
  ⟨by decide, by decide⟩

/-- C7 amended: the duplicate check does test truthiness of the `indexOf`
result, but `Array.prototype.indexOf` applied to the raw item name over an
array of `{name: ...}` records never finds a match (strict equality between
an object and a string is false), so it always returns `-1`, which is
truthy: an existing identically-named item at ANY position — including
position 0 — is not recognized as a duplicate, and every successful
`selectItem` appends `{name: itemName}` to the section's sequence. -/
theorem C7_amended_check_always_appends (st : State) (t s i : String) :
    (∀ items v, jsIndexOf items v = -1) ∧
    (∀ st', selectItem st t s i = Except.ok st' →
      getItems st' t s = getItems st t s ++ [some (Item.mk i)]) :=
  ⟨jsIndexOf_eq_neg_one, fun _ h => selectItem_getItems h⟩

/-- C7 witness: the amended claim applied at the initial state. -/
theorem C7_amended_check_always_appends_witness :
    getItems (runOps initialState [Op.sel "skills" "S" "a"]) "skills" "S"
      = getItems initialState "skills" "S" ++ [some (Item.mk "a")] :=
  (C7_amended_check_always_appends initialState "skills" "S" "a").2
    (runOps initialState [Op.sel "skills" "S" "a"]) rfl

/-- C8: for every sequence of `selectItem` calls on a known taxonomy with
pairwise-distinct `(section, item)` pairs, starting from the initial empty
state, the resulting selection state contains exactly those pairs, each
exactly once: the number of `{name: i}` records in section `s` of taxonomy
`t` is 1 when `(s, i)` is among the pairs and 0 otherwise, and every other
taxonomy contains no records at all. -/
theorem C8_distinct_selects_store_exactly_once (t : String)
    (ps : List (String × String)) (ht : t ∈ taxonomies) (hnd : ps.Nodup) :
    (∀ s i, countSel (runOps initialState (ps.map fun p => Op.sel t p.1 p.2)) t s i
        = if (s, i) ∈ ps then 1 else 0) ∧
    (∀ t' s i, t' ≠ t →
      countSel (runOps initialState (ps.map fun p => Op.sel t p.1 p.2)) t' s i = 0) := by
  constructor
  · intro s i
    have hs : (jsGet initialState t).isSome := by
      rw [jsGet_initialState_of_mem ht]; rfl
    rw [runOps_sel_count t ps initialState hs s i, countSel_initialState]
    by_cases hm : (s, i) ∈ ps
    · simp [hm, count_eq_one_of_nodup_of_mem hnd hm]
    · simp [hm, List.count_eq_zero_of_not_mem hm]
  · intro t' s i hne
    have hj := runOps_sel_jsGet_ne t t' hne ps initialState
    have hsec := getSection_congr hj s
    simp [countSel, getItems, hsec, getSection_initialState]

/-- C8 witness: two distinct pairs selected into `"skills"`; the pair
`("A","x")` is stored exactly once. -/
theorem C8_distinct_selects_store_exactly_once_witness :
    countSel (runOps initialState
      ([("A", "x"), ("B", "y")].map fun p => Op.sel "skills" p.1 p.2)) "skills" "A" "x"
      = if (("A", "x")) ∈ [("A", "x"), ("B", "y")] then 1 else 0 :=
  (C8_distinct_selects_store_exactly_once "skills" [("A", "x"), ("B", "y")]
    (by decide) (by decide)).1 "A" "x"

/-- C9: section records are created lazily and persist.  A successful
`selectItem` into an absent section creates the record (with an empty item
sequence, to which the item is then appended, leaving `[{name: i}]`); a
successful `selectItem` into an existing section only appends to it; and
once a section record exists, no sequence of `selectItem`/`unselectItem`
operations removes it — in particular a section whose item sequence is
emptied remains in the mapping. -/
theorem C9_sections_lazy_and_persistent (st : State) (t s i : String) :
    (∀ st', selectItem st t s i = Except.ok st' → getSection st t s = none →
        getSection st' t s = some (Section.mk s [some (Item.mk i)])) ∧
    (∀ st' sec, selectItem st t s i = Except.ok st' → getSection st t s = some sec →
        getSection st' t s
          = some (Section.mk sec.name (sec.items ++ [some (Item.mk i)]))) ∧
    (∀ ops, (getSection st t s).isSome → (getSection (runOps st ops) t s).isSome) :=
  ⟨fun _ h hn => selectItem_getSection_new i h hn,
   fun _ _ h hs => selectItem_getSection_old i h hs,
   fun ops h => runOps_getSection_isSome h ops⟩

/-- C9 witness: a select into the empty initial state creates the section;
the section survives the unselect that empties it (only a hole remains). -/
theorem C9_sections_lazy_and_persistent_witness :
    getSection (runOps initialState [Op.sel "skills" "A" "x"]) "skills" "A"
        = some (Section.mk "A" [some (Item.mk "x")]) ∧
    (getSection (runOps (runOps initialState [Op.sel "skills" "A" "x"])
        [Op.unsel "skills" "A" "x"]) "skills" "A").isSome :=
  ⟨(C9_sections_lazy_and_persistent initialState "skills" "A" "x").1
      (runOps initialState [Op.sel "skills" "A" "x"]) rfl rfl,
   (C9_sections_lazy_and_persistent (runOps initialState [Op.sel "skills" "A" "x"])
      "skills" "A" "x").2.2 [Op.unsel "skills" "A" "x"] (by decide)⟩

/-- C10: frame property.  Applying `selectItem(t, s, i)` or
`unselectItem(t, s, i)` with `t` a known taxonomy leaves the record of
every taxonomy other than `t` unchanged, and within `t` leaves every
section record whose name differs from `s` unchanged. -/
theorem C10_frame (st : State) (t s i : String) (op : Op)
    (_ht : t ∈ taxonomies) (hop : op = Op.sel t s i ∨ op = Op.unsel t s i) :
    (∀ t', t' ≠ t → jsGet (applyOp st op) t' = jsGet st t') ∧
    (∀ s', s' ≠ s → getSection (applyOp st op) t s' = getSection st t s') := by
  rcases hop with h | h <;> subst h
  · cases hres : selectItem st t s i with
    | error u =>
      cases u
      rw [applyOp_sel_of_err hres]
      exact ⟨fun _ _ => rfl, fun _ _ => rfl⟩
    | ok st' =>
      rw [applyOp_sel_of_ok hres]
      exact ⟨fun t' hne => selectItem_jsGet_ne hres hne,
             fun s' hne => selectItem_getSection_ne hres t hne⟩
  · cases hres : unselectItem st t s i with
    | error u =>
      cases u
      rw [applyOp_unsel_of_err hres]
      exact ⟨fun _ _ => rfl, fun _ _ => rfl⟩
    | ok st' =>
      rw [applyOp_unsel_of_ok hres]
      exact ⟨fun t' hne => unselectItem_jsGet_ne hres hne,
             fun s' hne => unselectItem_getSection_ne hres t hne⟩

/-- C10 witness: a select into `("skills", "A")` leaves the `"interests"`
taxonomy record and the `("skills", "B")` section untouched. -/
theorem C10_frame_witness :
    jsGet (applyOp initialState (Op.sel "skills" "A" "x")) "interests"
        = jsGet initialState "interests" ∧
    getSection (applyOp initialState (Op.sel "skills" "A" "x")) "skills" "B"
        = getSection initialState "skills" "B" :=
  ⟨(C10_frame initialState "skills" "A" "x" (Op.sel "skills" "A" "x")
      (by decide) (Or.inl rfl)).1 "interests" (by decide),
   (C10_frame initialState "skills" "A" "x" (Op.sel "skills" "A" "x")
      (by decide) (Or.inl rfl)).2 "B" (by decide)⟩

end TaxonomySelector
